import Mathlib

/-!
Verification of the p-shooter embedded document store.

This file gives a shallow embedding of the parts of the source relevant to
the frozen claims: the query translators (`shared.ts` and the legacy copy of
`PSHDatabase`), the index path/field mapping (`PSHIndexing.ts`), the storage
layer (`PSHDatabase`: `toWrite`, `save`, `get`, `findOne`, `delete`, `wipe`
and the row unwrapper), the gateway (`PSHSQLiteWrapper`: `get`, `try`), the
transaction batcher (`PSHTransaction`), and the per-collection CDC runner
(`PSHCollectionRunner` / `PSHEventEngine.register`).

JavaScript objects are modelled as association lists with unique keys, JS
strings as Lean `String`, millisecond timestamps as `Nat`, and the SQLite
engine as explicit list-of-rows state with the transactional semantics the
source relies on.
-/

/-- A primitive JSON / query value (`PSHDatabaseQueryValue` in
`PSHDatabaseQuery.ts`: `string | number | boolean | null`). -/
inductive JSVal where
  | str (s : String)
  | num (n : Int)
  | bool (b : Bool)
  | null

deriving DecidableEq, Repr

/-- A query condition (`PSHDatabaseQueryCondition`): either a bare scalar or
an `[operator, operand]` pair (the source distinguishes them by `isArray`). -/
inductive QueryCondition where
  | scalar (v : JSVal)
  | pair (o : String) (v : JSVal)

deriving DecidableEq, Repr

/-- A structured query: `Object.entries` of the query object, in key
insertion order (`PSHDatabaseQuery = Record<string, PSHDatabaseQueryCondition>`). -/
abbrev DBQuery := List (String × QueryCondition)

/-- `toSQLQueryable` from `src/shared.ts` (lines 28-35): clause `k op ?` for
an array condition and `k = ?` otherwise; the argument is the pair's SECOND
element (`v[1]`) for array conditions and the bare scalar otherwise. -/
def toSQLQueryable (colName : String) (query : DBQuery) : String × List JSVal :=
  let clause := fun (p : String × QueryCondition) =>
    match p.2 with
    | .pair o _ => p.1 ++ " " ++ o ++ " ?"
    | .scalar _ => p.1 ++ " = ?"
  let arg := fun (p : String × QueryCondition) =>
    match p.2 with
    | .pair _ v => v
    | .scalar v => v
  let args := query.map arg
  let sql := "SELECT id, json, date FROM " ++ colName ++ " WHERE "
      ++ String.intercalate " AND " (query.map clause)
  (sql, args)

/-- `PSHDatabase.toSQLandArgs` from the legacy copy of `PSHDatabase`
(`src/unnamed/part_000` lines 379-386): same clause builder, but the argument
for an array condition is the pair's FIRST element (`v[0]`, the operator). -/
def toSQLandArgs (colName : String) (query : DBQuery) : String × List JSVal :=
  let clause := fun (p : String × QueryCondition) =>
    match p.2 with
    | .pair o _ => p.1 ++ " " ++ o ++ " ?"
    | .scalar _ => p.1 ++ " = ?"
  let arg := fun (p : String × QueryCondition) =>
    match p.2 with
    | .pair o _ => JSVal.str o
    | .scalar v => v
  let args := query.map arg
  let sql := "SELECT id, json, date FROM " ++ colName ++ " WHERE "
      ++ String.intercalate " AND " (query.map clause)
  (sql, args)

/-- The spec's example query `{a: 1, b: [">", 2]}`. -/
def c1Query : DBQuery := [("a", .scalar (.num 1)), ("b", .pair ">" (.num 2))]

/-- JavaScript `String.replace` with a string pattern: replaces only the
FIRST occurrence of `pat` (here always nonempty) in the subject, or returns
the subject unchanged when `pat` does not occur. -/
def jsReplaceFirstChars (pat rep : List Char) : List Char → List Char
  | [] => []
  | c :: rest =>
      if pat.isPrefixOf (c :: rest) then rep ++ (c :: rest).drop pat.length
      else c :: jsReplaceFirstChars pat rep rest

/-- String-level wrapper for `jsReplaceFirstChars`. -/
def jsReplaceFirst (s pat rep : String) : String :=
  String.mk (jsReplaceFirstChars pat.data rep.data s.data)

/-- `indexPathToField` from `src/PSHIndexing.ts` line 5:
`path.replace('.', '__')`. -/
def indexPathToField (path : String) : String := jsReplaceFirst path "." "__"

/-- `fieldToIndexPath` from `src/PSHIndexing.ts` line 6:
`field.replace('__', '.')`. -/
def fieldToIndexPath (field : String) : String := jsReplaceFirst field "__" "."

/-- A JavaScript object / JSON document: an association list of fields in
key insertion order. Well-formed JS objects have pairwise-distinct keys. -/
abbrev Doc := List (String × JSVal)

/-- Property access `d[k]`: the first entry with key `k`. -/
def jsGet (d : Doc) (k : String) : Option JSVal :=
  (d.find? (fun p => p.1 == k)).map (fun p => p.2)

/-- Entry rewriter used by `jsSet`: replace the entry holding key `k`. -/
def jsSetEntry (k : String) (v : JSVal) (p : String × JSVal) : String × JSVal :=
  if p.1 == k then (k, v) else p

/-- JS object update (as performed by spread syntax such as
`{ ...ob, id }`): overwrite the value in place when the key is present,
append the entry otherwise. -/
def jsSet (d : Doc) (k : String) (v : JSVal) : Doc :=
  if d.any (fun p => p.1 == k) then d.map (jsSetEntry k v)
  else d ++ [(k, v)]

/-- A stored row of a collection table: `id VARCHAR(32) PRIMARY KEY, json
TEXT NOT NULL, date INTEGER NOT NULL`. The serialized `json` column is
modelled by the document it encodes (the JSON codec round-trips). Index
columns are projections of `json` and are not observed by the claims below,
whose result sets are always `SELECT id, json, date`. -/
structure Row where
  id : String
  json : Doc
  date : Nat

deriving DecidableEq, Repr

/-- `unwrap` from `PSHDatabase` (`src/unnamed/part_000` line 226):
`{ ...JSON.parse(wrapper.json), saved: wrapper.date, id: wrapper.id || 'WTAF' }`.
An empty (falsy) row id is replaced by the literal string `WTAF`. -/
def unwrap (r : Row) : Doc :=
  jsSet (jsSet r.json "saved" (JSVal.num (Int.ofNat r.date))) "id"
    (JSVal.str (if r.id = "" then "WTAF" else r.id))

/-- The engine's upsert for `INSERT ... ON CONFLICT DO UPDATE SET json = ?,
date = ?` on a primary-key table: update the matching row in place, or
append a fresh row. -/
def upsertEntry (id : String) (j : Doc) (now : Nat) (r : Row) : Row :=
  if r.id == id then { id := id, json := j, date := now } else r

def upsertRow (table : List Row) (id : String) (j : Doc) (now : Nat) : List Row :=
  if table.any (fun r => r.id == id) then table.map (upsertEntry id j now)
  else table ++ [{ id := id, json := j, date := now }]

/-- `PSHDatabase.save` composed with `toWrite` (`src/unnamed/part_000` lines
170-175 and 195-210) on the `(id, json, date)` columns: the stored json is
`JSON.stringify({ ...ob, id })` and `date` is `Date.now()` at write time. -/
def saveRow (table : List Row) (id : String) (ob : Doc) (now : Nat) : List Row :=
  upsertRow table id (jsSet ob "id" (JSVal.str id)) now

/-- `PSHSQLiteWrapper.get` applied to a translated `SELECT id, json, date`
query whose WHERE clause the engine evaluates as the row predicate `p`,
composed with the unwrap-or-null continuation of `PSHDatabase.get`/`findOne`:
more than one matching row throws, one row unwraps, none yields null. -/
def sqlGetBy (p : Row → Bool) (table : List Row) : Except String (Option Doc) :=
  let all := table.filter p
  if all.length > 1 then Except.error "Expected 0 or 1 result"
  else Except.ok (all.head?.map unwrap)

/-- `PSHDatabase.get` (`src/unnamed/part_000` lines 134-136): single-row
select by primary key, then unwrap. -/
def dbGet (table : List Row) (id : String) : Except String (Option Doc) :=
  sqlGetBy (fun r => r.id == id) table

/-- `PSHDatabase.delete` (`DELETE FROM col WHERE id = ?`). -/
def dbDelete (table : List Row) (id : String) : List Row :=
  table.filter (fun r => !(r.id == id))

/-- The string value of a document's `id` field, as read by the non-null
assertion `t.id!` in `findOne`; unwrapped documents always carry one. -/
def docIdStr (d : Doc) : String :=
  match jsGet d "id" with
  | some (JSVal.str s) => s
  | _ => ""

/-- `PSHDatabase.findOne` (`src/unnamed/part_000` lines 145-157): query all
matching rows; when more than one matches, delete every match but the first
by its UNWRAPPED document id; then re-run the query through the gateway's
cardinality-checking `get`. Returns the result together with the resulting
table state. -/
def findOneDeletions (p : Row → Bool) (table : List Row) : List Row :=
  if ((table.filter p).map unwrap).length > 1 then
    (((table.filter p).map unwrap).drop 1).foldl
      (fun t d => dbDelete t (docIdStr d)) table
  else table

def findOneModel (p : Row → Bool) (table : List Row) :
    Except String (Option Doc) × List Row :=
  (sqlGetBy p (findOneDeletions p table), findOneDeletions p table)

deriving instance DecidableEq for Except

/-- A document whose string id is empty. -/
def c5BadDoc : Doc := [("id", JSVal.str "")]

/-- A concrete well-formed document with nonempty id. -/
def c5wDoc : Doc := [("id", JSVal.str "a"), ("t", JSVal.str "x")]

/-- Row predicate standing for the translated query `{date: [">", 0]}`. -/
def c6P : Row → Bool := fun r => decide (0 < r.date)

/-- A table containing a duplicate match whose row id is empty. -/
def c6BadRows : List Row :=
  [{ id := "a", json := [("id", JSVal.str "a")], date := 1 },
   { id := "", json := [("id", JSVal.str "")], date := 2 }]

/-- The first (surviving) row of `c6BadRows`. -/
def c6FirstRow : Row := { id := "a", json := [("id", JSVal.str "a")], date := 1 }

/-- Row predicate standing for a translated query matching both rows of
`c6wRows`. -/
def c6wP : Row → Bool := fun r => decide (0 < r.date)

/-- A table of two matching rows with distinct nonempty ids. -/
def c6wRows : List Row :=
  [{ id := "a", json := [("id", JSVal.str "a")], date := 1 },
   { id := "b", json := [("id", JSVal.str "b")], date := 2 }]

/-- `PSHEventType` from `PSHEvent.ts`. -/
inductive EventType where
  | insert
  | update
  | write
  | delete

deriving DecidableEq, Repr

/-- An inflated `_events` row (`PSHEvent`): `before`/`after` carried through
dispatch unchanged. -/
structure Event where
  col : String
  id : String
  type : EventType
  date : Nat
  before : Option Doc
  after : Option Doc

deriving DecidableEq, Repr

/-- A `TriggerRegistration` of `PSHCollectionRunner` (`src/unnamed/part_001`
lines 453-457): subscription id, the trigger's event-type filter `on`, and
the in-memory cursor. The callback is observed through the dispatch log. -/
structure Registration where
  subscriptionId : String
  onType : EventType
  cursor : Nat

deriving DecidableEq, Repr

/-- The state a collection runner operates on: its collection name, its
registrations in `Map` insertion order, the `_cursors` table, and the
`_events` table (append-only, written by SQL triggers). -/
structure RunnerState where
  col : String
  regs : List Registration
  cursors : List (String × Nat)
  events : List Event

deriving DecidableEq, Repr

/-- `PSHCollectionRunner.getEarliestCursor` (lines 510-518): minimum cursor
over registrations, or `Date.now()` when there are none. -/
def getEarliestCursor (regs : List Registration) (now : Nat) : Nat :=
  match regs.map Registration.cursor with
  | [] => now
  | c :: cs => cs.foldl min c

/-- The date selected by the runner's peek query
(`SELECT ... WHERE col = ? AND date > ? ORDER BY date ASC LIMIT 1`). -/
def minCandidateDate (s : RunnerState) (now : Nat) : Option Nat :=
  let earliest := getEarliestCursor s.regs now
  ((s.events.filter (fun e => e.col == s.col && earliest < e.date)).map
    Event.date).min?

/-- `PSHCollectionRunner.nextEvents` (lines 520-528): peek the earliest
event past the earliest cursor, then fetch the whole same-date batch
(`WHERE col = ? AND date = ?`, with no cursor condition). -/
def nextEvents (s : RunnerState) (now : Nat) : List Event :=
  match minCandidateDate s now with
  | none => []
  | some d => s.events.filter (fun e => e.col == s.col && e.date == d)

/-- Underscore's `uniq(events, false, e => e.id)`: keep the first event per
document id. -/
def uniqByIdGo (seen : List String) : List Event → List Event
  | [] => []
  | e :: rest =>
      if seen.contains e.id then uniqByIdGo seen rest
      else e :: uniqByIdGo (e.id :: seen) rest

/-- Batch deduplication by event id (line 552). -/
def uniqById (l : List Event) : List Event := uniqByIdGo [] l

/-- The dispatch condition at `src/unnamed/part_001` line 576, with
JavaScript operator precedence (`&&` binds tighter than `||`):
`trigger.on === event.type || trigger.on === 'write' && event.date > cursor`. -/
def shouldDispatch (onT : EventType) (cursor : Nat) (e : Event) : Bool :=
  onT == e.type || (onT == EventType.write && cursor < e.date)

/-- `PSHCollectionRunner.writeCursor` (lines 500-508): unconditionally
`UPDATE _cursors SET date = ? WHERE name = ?` and overwrite the in-memory
registration cursor. -/
def writeCursor (s : RunnerState) (sid : String) (c : Nat) : RunnerState :=
  { s with
    cursors := s.cursors.map (fun p => if p.1 == sid then (p.1, c) else p),
    regs := s.regs.map (fun r =>
      if r.subscriptionId == sid then { r with cursor := c } else r) }

/-- One event dispatched across all registrations in order (lines 572-581):
for each registration read its current cursor, test `shouldDispatch`, and on
success invoke the callback (logged as `(subscriptionId, cursor, event)`
with the cursor value at call time) and write the event date as the new
cursor. -/
def dispatchEvent (s0 : RunnerState) (e : Event) :
    RunnerState × List (String × Nat × Event) :=
  (s0.regs.map Registration.subscriptionId).foldl
    (fun acc sid =>
      match acc.1.regs.find? (fun r => r.subscriptionId == sid) with
      | none => acc
      | some reg =>
          if shouldDispatch reg.onType reg.cursor e then
            (writeCursor acc.1 sid e.date, acc.2 ++ [(sid, reg.cursor, e)])
          else acc)
    (s0, [])

/-- One non-empty iteration of the runner loop (lines 546-591): fetch the
same-date batch past the earliest cursor, deduplicate by id, and dispatch
each event to every registration in order. Returns the new state and the
log of callback invocations. -/
def runnerIteration (s : RunnerState) (now : Nat) :
    RunnerState × List (String × Nat × Event) :=
  (uniqById (nextEvents s now)).foldl
    (fun acc e =>
      let step := dispatchEvent acc.1 e
      (step.1, acc.2 ++ step.2))
    (s, [])

/-- `PSHEventEngine.register` (`src/unnamed/part_001` lines 384-414), state
effect: mint a subscription id, set its initial cursor to `Date.now()`,
persist it with `INSERT INTO _cursors (name, date) VALUES (?, ?)`, and add
the registration to the collection runner. -/
def registerModel (s : RunnerState) (sid : String) (onT : EventType)
    (nowReg : Nat) : RunnerState :=
  { s with
    regs := s.regs ++ [{ subscriptionId := sid, onType := onT, cursor := nowReg }],
    cursors := s.cursors ++ [(sid, nowReg)] }

/-- A delete event for document `x` at time 5. -/
def c2Event : Event :=
  { col := "todos", id := "x", type := EventType.delete, date := 5,
    before := some [("id", JSVal.str "x")], after := none }

/-- A runner with one `write` subscription at cursor 0 and one pending
delete event. -/
def c2State : RunnerState :=
  { col := "todos",
    regs := [{ subscriptionId := "s1", onType := EventType.write, cursor := 0 }],
    cursors := [("s1", 0)],
    events := [c2Event] }

/-- An insert event dated 5. -/
def c3Event : Event :=
  { col := "todos", id := "x", type := EventType.insert, date := 5,
    before := none, after := some [("id", JSVal.str "x")] }

/-- A runner with two insert subscriptions: `A` at cursor 0 and `B` at
cursor 10, and one pending insert event dated 5. -/
def c3State : RunnerState :=
  { col := "todos",
    regs := [{ subscriptionId := "A", onType := EventType.insert, cursor := 0 },
             { subscriptionId := "B", onType := EventType.insert, cursor := 10 }],
    cursors := [("A", 0), ("B", 10)],
    events := [c3Event] }

/-- Same scenario as `c3State`, for the cursor-monotonicity claim. -/
def c4State : RunnerState :=
  { col := "todos",
    regs := [{ subscriptionId := "A", onType := EventType.insert, cursor := 0 },
             { subscriptionId := "B", onType := EventType.insert, cursor := 10 }],
    cursors := [("A", 0), ("B", 10)],
    events := [c3Event] }

/-- An insert event dated 50, already present in `_events` before the new
subscription registers. -/
def c8OldEvent : Event :=
  { col := "todos", id := "x", type := EventType.insert, date := 50,
    before := none, after := some [("id", JSVal.str "x")] }

/-- A runner with one old insert subscription at cursor 0 and the
pre-existing event. -/
def c8Base : RunnerState :=
  { col := "todos",
    regs := [{ subscriptionId := "old", onType := EventType.insert, cursor := 0 }],
    cursors := [("old", 0)],
    events := [c8OldEvent] }

/-- The state after `register` creates subscription `new` at time 100. -/
def c8State : RunnerState := registerModel c8Base "new" EventType.insert 100

/-- Character-level substring test backing JavaScript `String.includes`. -/
def containsSubChars (pat : List Char) : List Char → Bool
  | [] => pat.isEmpty
  | c :: rest => pat.isPrefixOf (c :: rest) || containsSubChars pat rest

/-- JavaScript `s.includes(sub)`. -/
def jsIncludes (s sub : String) : Bool := containsSubChars sub.data s.data

/-- `PSHSQLiteWrapper.try` (`src/PSHSQLiteWrapper.ts` lines 58-75) applied
to the engine's outcome for the statement: on success resolve `true`; on any
error, branch on whether the stringified error contains
`duplicate column name` — both branches only log, and BOTH resolve `false`.
The promise never rejects. -/
def tryStatement (outcome : Except String Unit) : Bool :=
  match outcome with
  | Except.ok _ => true
  | Except.error e =>
      if jsIncludes e "duplicate column name" then false
      else false

/-- `PSHDatabase.wipe` (`src/unnamed/part_000` lines 191-193):
`await this.sqlDb.try('DELETE FROM ' + colName)` and return; the engine
outcome of the DELETE is routed through `try`, so the returned promise
resolves whatever the engine did. -/
def wipeModel (engineOutcome : Except String Unit) : Except String Unit := do
  let _ ← pure (tryStatement engineOutcome)
  return ()

/-- A deferred write queued by `PSHTransaction.add`: the target primary key
and the document, to be composed by the same upsert builder as `save`
(`PSHAdd.toWrite` via `PSHRef.toWrite`, `src/PSHTransaction.ts`). -/
structure DeferredWrite where
  id : String
  doc : Doc

deriving DecidableEq, Repr

/-- The effect of one queued upsert statement on the table. -/
def applyWrite (now : Nat) (table : List Row) (w : DeferredWrite) : List Row :=
  upsertRow table w.id (jsSet w.doc "id" (JSVal.str w.id)) now

/-- The row a deferred write leaves behind. -/
def writtenRow (now : Nat) (w : DeferredWrite) : Row :=
  { id := w.id, json := jsSet w.doc "id" (JSVal.str w.id), date := now }

/-- The engine contract for `sqlDb.transaction` (§4.A, react-native-sqlite-2
websql semantics): statements execute in order inside one transaction; a
statement error (modelled by the failure predicate `failP`) aborts and rolls
back the whole transaction, yielding `none`. -/
def engineTxGo (failP : List Row → DeferredWrite → Bool) (now : Nat) :
    List Row → List DeferredWrite → Option (List Row)
  | t, [] => some t
  | t, w :: rest =>
      if failP t w then none
      else engineTxGo failP now (applyWrite now t w) rest

/-- `PSHTransaction.execute` (`src/PSHTransaction.ts` lines 59-63): issue
every queued write inside one engine transaction; clear the queue only on
commit (`.then(() => this.toAdd = [])`); on rejection the queue and the
table are left as they were. Result: (table, queue, committed). -/
def executeModel (failP : List Row → DeferredWrite → Bool) (now : Nat)
    (table : List Row) (queue : List DeferredWrite) :
    List Row × List DeferredWrite × Bool :=
  match engineTxGo failP now table queue with
  | some t2 => (t2, [], true)
  | none => (table, queue, false)

/-- A concrete two-element write queue. -/
def c9wQueue : List DeferredWrite :=
  [{ id := "a", doc := [("id", JSVal.str "a")] },
   { id := "b", doc := [("x", JSVal.num 1)] }]

/-- An engine in which no statement fails. -/
def c9wFail : List Row → DeferredWrite → Bool := fun _ _ => false

/-- Claim C1: on the query `{a: 1, b: [">", 2]}` the shared translator
`toSQLQueryable` emits `SELECT id, json, date FROM c WHERE a = ? AND b > ?`
with args `[1, 2]` (the operand), exactly as the claim states, but the legacy
`PSHDatabase.toSQLandArgs` emits the same SQL with args `[1, ">"]`: it binds
the pair's first element, the operator, instead of the operand. -/
theorem c1_translator_args :
    toSQLQueryable "c" c1Query
      = ("SELECT id, json, date FROM c WHERE a = ? AND b > ?",
         [JSVal.num 1, JSVal.num 2])
    ∧ toSQLandArgs "c" c1Query
      = ("SELECT id, json, date FROM c WHERE a = ? AND b > ?",
         [JSVal.num 1, JSVal.str ">"])
    ∧ (JSVal.str ">") ≠ (JSVal.num 2) := by
  refine ⟨rfl, rfl, by decide⟩

/-- Claim C7: on the two-dot path `a.b.c`, `indexPathToField` yields
`a__b.c`, not `a__b__c`: JavaScript `replace` with a string pattern rewrites
only the first dot, contradicting the claim that every dot is replaced.
(The round trip `fieldToIndexPath (indexPathToField p) = p` still happens to
hold at this input, but the produced column name retains a literal dot.) -/
theorem c7_indexPathToField_first_dot_only :
    indexPathToField "a.b.c" = "a__b.c"
    ∧ indexPathToField "a.b.c" ≠ "a__b__c"
    ∧ fieldToIndexPath (indexPathToField "a.b.c") = "a.b.c" := by
  refine ⟨rfl, by decide, rfl⟩

theorem find?_map_jsSetEntry_same (k : String) (v : JSVal) (d : Doc)
    (h : d.any (fun p => p.1 == k) = true) :
    (d.map (jsSetEntry k v)).find? (fun p => p.1 == k) = some (k, v) := by
  induction d with
  | nil => simp at h
  | cons p rest ih =>
    by_cases hp : p.1 = k
    · have he : jsSetEntry k v p = (k, v) := by simp [jsSetEntry, hp]
      rw [List.map_cons, he, List.find?_cons_of_pos _ (by simp)]
    · have he : jsSetEntry k v p = p := by simp [jsSetEntry, hp]
      have h2 : rest.any (fun p => p.1 == k) = true := by
        rcases List.any_eq_true.mp h with ⟨x, hx, hxk⟩
        rcases List.mem_cons.mp hx with rfl | hx2
        · exact absurd (by simpa using hxk) hp
        · exact List.any_eq_true.mpr ⟨x, hx2, hxk⟩
      rw [List.map_cons, he, List.find?_cons_of_neg _ (by simpa using hp), ih h2]

theorem find?_map_jsSetEntry_ne (k k2 : String) (v : JSVal) (d : Doc)
    (h : k2 ≠ k) :
    (d.map (jsSetEntry k v)).find? (fun p => p.1 == k2)
      = d.find? (fun p => p.1 == k2) := by
  induction d with
  | nil => rfl
  | cons p rest ih =>
    by_cases hp : p.1 = k
    · have he : jsSetEntry k v p = (k, v) := by simp [jsSetEntry, hp]
      have hk2 : ¬ ((k, v).1 = k2) := by simpa using (Ne.symm h)
      rw [List.map_cons, he, List.find?_cons_of_neg _ (by simpa using hk2),
        List.find?_cons_of_neg _ (by simp [hp]; exact fun hc => absurd hc.symm h), ih]
    · have he : jsSetEntry k v p = p := by simp [jsSetEntry, hp]
      rw [List.map_cons, he]
      by_cases hq : p.1 = k2
      · rw [List.find?_cons_of_pos _ (by simpa using hq),
          List.find?_cons_of_pos _ (by simpa using hq)]
      · rw [List.find?_cons_of_neg _ (by simpa using hq),
          List.find?_cons_of_neg _ (by simpa using hq), ih]

theorem jsGet_jsSet_same (d : Doc) (k : String) (v : JSVal) :
    jsGet (jsSet d k v) k = some v := by
  unfold jsGet jsSet
  by_cases h : d.any (fun p => p.1 == k) = true
  · rw [if_pos h, find?_map_jsSetEntry_same k v d h]
    rfl
  · rw [if_neg h]
    have hfalse : d.any (fun p => p.1 == k) = false := by
      cases hb : d.any (fun p => p.1 == k) with
      | false => rfl
      | true => exact absurd hb h
    have hnone : d.find? (fun p => p.1 == k) = none :=
      List.find?_eq_none.mpr (List.any_eq_false.mp hfalse)
    rw [List.find?_append, hnone, Option.none_or, List.find?_cons_of_pos _ (by simp)]
    rfl

theorem jsGet_jsSet_ne (d : Doc) (k k2 : String) (v : JSVal) (h : k2 ≠ k) :
    jsGet (jsSet d k v) k2 = jsGet d k2 := by
  unfold jsGet jsSet
  by_cases hA : d.any (fun p => p.1 == k) = true
  · rw [if_pos hA, find?_map_jsSetEntry_ne k k2 v d h]
  · rw [if_neg hA, List.find?_append]
    have hsingle : List.find? (fun p => p.1 == k2) [(k, v)] = none := by
      simp [Ne.symm h]
    rw [hsingle, Option.or_none]

theorem entry_unique (d : Doc) (hks : (d.map Prod.fst).Nodup)
    (p q : String × JSVal) (hp : p ∈ d) (hq : q ∈ d) (hk : p.1 = q.1) : p = q := by
  induction d with
  | nil => cases hp
  | cons a rest ih =>
    have hks2 : (a.1 :: rest.map Prod.fst).Nodup := by
      rw [List.map_cons] at hks; exact hks
    have hcons := List.nodup_cons.mp hks2
    rcases List.mem_cons.mp hp with rfl | hp2
    · rcases List.mem_cons.mp hq with rfl | hq2
      · rfl
      · exact absurd (hk ▸ List.mem_map.mpr ⟨q, hq2, rfl⟩) hcons.1
    · rcases List.mem_cons.mp hq with rfl | hq2
      · exact absurd (hk ▸ List.mem_map.mpr ⟨p, hp2, rfl⟩) hcons.1
      · exact ih hcons.2 hp2 hq2

theorem jsSet_self (d : Doc) (k : String) (v : JSVal)
    (hks : (d.map Prod.fst).Nodup) (h : jsGet d k = some v) :
    jsSet d k v = d := by
  unfold jsGet at h
  cases hF : d.find? (fun p => p.1 == k) with
  | none => rw [hF] at h; simp at h
  | some p0 =>
    rw [hF] at h
    have hv : p0.2 = v := by simpa using h
    have hmem : p0 ∈ d := List.mem_of_find?_eq_some hF
    have hpk : p0.1 = k := by simpa using List.find?_some hF
    have hany : d.any (fun p => p.1 == k) = true :=
      List.any_eq_true.mpr ⟨p0, hmem, by simpa using hpk⟩
    unfold jsSet
    rw [if_pos hany]
    have hall : ∀ p ∈ d, jsSetEntry k v p = id p := by
      intro p hp
      by_cases hpk2 : p.1 = k
      · have he : p = p0 := entry_unique d hks p p0 hp hmem (by rw [hpk2, hpk])
        rcases p with ⟨a, b⟩
        simp only at hpk2
        subst hpk2
        have hb : b = v := by rw [← he] at hv; exact hv
        subst hb
        simp [jsSetEntry]
      · simp [jsSetEntry, hpk2]
    rw [List.map_congr_left hall, List.map_id]

theorem jsSet_keys_nodup (d : Doc) (k : String) (v : JSVal)
    (hks : (d.map Prod.fst).Nodup) : ((jsSet d k v).map Prod.fst).Nodup := by
  unfold jsSet
  by_cases hA : d.any (fun p => p.1 == k) = true
  · rw [if_pos hA, List.map_map]
    have hall : ∀ p ∈ d, (Prod.fst ∘ jsSetEntry k v) p = Prod.fst p := by
      intro p hp
      by_cases hpk : p.1 = k
      · simp [jsSetEntry, hpk]
      · simp [jsSetEntry, hpk]
    rw [List.map_congr_left hall]
    exact hks
  · rw [if_neg hA, List.map_append]
    have hfalse : d.any (fun p => p.1 == k) = false := by
      cases hb : d.any (fun p => p.1 == k) with
      | false => rfl
      | true => exact absurd hb hA
    have hk : k ∉ d.map Prod.fst := by
      intro hmem
      rcases List.mem_map.mp hmem with ⟨p, hp, hfst⟩
      exact (List.any_eq_false.mp hfalse) p hp (by simpa using hfst)
    refine List.nodup_append.mpr ⟨hks, List.nodup_singleton k, ?_⟩
    intro a ha hb
    rcases List.mem_singleton.mp hb with rfl
    exact hk ha

theorem docIdStr_unwrap (r : Row) :
    docIdStr (unwrap r) = if r.id = "" then "WTAF" else r.id := by
  unfold docIdStr unwrap
  rw [jsGet_jsSet_same]

theorem filter_upsertRow (table : List Row) (i : String) (j : Doc) (now : Nat)
    (hnodup : (table.map Row.id).Nodup) :
    (upsertRow table i j now).filter (fun r => r.id == i)
      = [{ id := i, json := j, date := now }] := by
  induction table with
  | nil => simp [upsertRow]
  | cons r rest ih =>
    have hks2 : (r.id :: rest.map Row.id).Nodup := by
      rw [List.map_cons] at hnodup; exact hnodup
    have hcons := List.nodup_cons.mp hks2
    by_cases hri : r.id = i
    · have hany : (r :: rest).any (fun x => x.id == i) = true :=
        List.any_eq_true.mpr ⟨r, by simp, by simpa using hri⟩
      unfold upsertRow
      rw [if_pos hany, List.map_cons]
      have hfr : upsertEntry i j now r = { id := i, json := j, date := now } := by
        simp [upsertEntry, hri]
      rw [hfr, List.filter_cons_of_pos (by simp)]
      have hmapf : rest.map (upsertEntry i j now) = rest.map id := by
        refine List.map_congr_left ?_
        intro q hq
        have hqne : q.id ≠ i := by
          intro hqe
          exact hcons.1 (hri ▸ hqe ▸ List.mem_map.mpr ⟨q, hq, rfl⟩)
        simp [upsertEntry, hqne]
      rw [hmapf, List.map_id, List.filter_eq_nil_iff.mpr ?_]
      intro q hq
      have hqne : q.id ≠ i := by
        intro hqe
        exact hcons.1 (hri ▸ hqe ▸ List.mem_map.mpr ⟨q, hq, rfl⟩)
      simpa using hqne
    · by_cases hA : rest.any (fun x => x.id == i) = true
      · have hany : (r :: rest).any (fun x => x.id == i) = true := by
          rcases List.any_eq_true.mp hA with ⟨x, hx, hxk⟩
          exact List.any_eq_true.mpr ⟨x, List.mem_cons_of_mem r hx, hxk⟩
        unfold upsertRow at ih ⊢
        rw [if_pos hany, List.map_cons]
        have hfr : upsertEntry i j now r = r := by simp [upsertEntry, hri]
        rw [hfr, List.filter_cons_of_neg (by simpa using hri)]
        rw [if_pos hA] at ih
        exact ih hcons.2
      · have hanyc : (r :: rest).any (fun x => x.id == i) = false := by
          refine List.any_eq_false.mpr ?_
          intro x hx
          rcases List.mem_cons.mp hx with rfl | hx2
          · simpa using hri
          · have hfalse : rest.any (fun x => x.id == i) = false := by
              cases hb : rest.any (fun x => x.id == i) with
              | false => rfl
              | true => exact absurd hb hA
            exact (List.any_eq_false.mp hfalse) x hx2
        unfold upsertRow at ih ⊢
        rw [if_neg (by simp [hanyc]), List.cons_append,
          List.filter_cons_of_neg (by simpa using hri)]
        have hAf : rest.any (fun x => x.id == i) = false := by
          cases hb : rest.any (fun x => x.id == i) with
          | false => rfl
          | true => exact absurd hb hA
        rw [if_neg (by simp [hAf])] at ih
        exact ih hcons.2

/-- Claim C5 (amended): for every table with primary-key-unique ids, every
well-formed document `d` carrying a NONEMPTY string id `i`, and every write
time `now`, `save` followed by `get` returns `d` with a `saved` field equal
to the written `date` column spliced in (and nothing else changed). The
nonemptiness restriction is forced by `unwrap`, which rewrites a falsy row
id to the literal `WTAF`. -/
theorem c5_save_get_roundtrip (table : List Row) (d : Doc) (i : String) (now : Nat)
    (hnodup : (table.map Row.id).Nodup)
    (hkeys : (d.map Prod.fst).Nodup)
    (hi : i ≠ "")
    (hd : jsGet d "id" = some (JSVal.str i)) :
    dbGet (saveRow table i d now) i
      = Except.ok (some (jsSet d "saved" (JSVal.num (Int.ofNat now)))) := by
  unfold saveRow
  rw [jsSet_self d "id" (JSVal.str i) hkeys hd]
  unfold dbGet sqlGetBy
  rw [filter_upsertRow table i d now hnodup]
  simp only [List.length_singleton, List.head?_cons, Option.map_some']
  rw [if_neg (by norm_num)]
  congr 1
  unfold unwrap
  simp only [if_neg hi]
  congr 1
  refine jsSet_self _ "id" (JSVal.str i) ?_ ?_
  · exact jsSet_keys_nodup d "saved" _ hkeys
  · rw [jsGet_jsSet_ne d "saved" "id" _ (by decide)]
    exact hd

/-- Claim C5 counterexample: for the document `{id: ""}` (which carries a
string id), saving at time 5 and reading back does NOT return the document
plus `saved`: `unwrap` rewrites the falsy id to `WTAF`, so the returned
document is `{id: "WTAF", saved: 5}`. -/
theorem c5_counterexample :
    dbGet (saveRow [] "" c5BadDoc 5) ""
        ≠ Except.ok (some (jsSet c5BadDoc "saved" (JSVal.num 5)))
    ∧ dbGet (saveRow [] "" c5BadDoc 5) ""
        = Except.ok (some [("id", JSVal.str "WTAF"), ("saved", JSVal.num 5)]) := by
  exact ⟨by decide, by decide⟩

/-- Witness for C5: the amended round trip evaluated at the concrete
document `{id: "a", t: "x"}` saved at time 7 into an empty table. -/
theorem c5_witness :
    dbGet (saveRow [] "a" c5wDoc 7) "a"
      = Except.ok (some [("id", JSVal.str "a"), ("t", JSVal.str "x"),
          ("saved", JSVal.num 7)]) := by
  have h := c5_save_get_roundtrip [] c5wDoc "a" 7 (by decide) (by decide)
    (by decide) (by decide)
  exact h.trans (by decide)

theorem rowId_unique (table : List Row) (hnodup : (table.map Row.id).Nodup)
    (y z : Row) (hy : y ∈ table) (hz : z ∈ table) (h : y.id = z.id) : y = z := by
  induction table with
  | nil => cases hy
  | cons a rest ih =>
    have hks2 : (a.id :: rest.map Row.id).Nodup := by
      rw [List.map_cons] at hnodup; exact hnodup
    have hcons := List.nodup_cons.mp hks2
    rcases List.mem_cons.mp hy with rfl | hy2
    · rcases List.mem_cons.mp hz with rfl | hz2
      · rfl
      · exact absurd (h ▸ List.mem_map.mpr ⟨z, hz2, rfl⟩) hcons.1
    · rcases List.mem_cons.mp hz with rfl | hz2
      · exact absurd (h ▸ List.mem_map.mpr ⟨y, hy2, rfl⟩) hcons.1
      · exact ih hcons.2 hy2 hz2

theorem foldl_dbDelete (l : List Row) (t : List Row) :
    l.foldl (fun a b => dbDelete a b.id) t
      = t.filter (fun r => !(decide (r.id ∈ l.map Row.id))) := by
  induction l generalizing t with
  | nil => simp
  | cons b l ih =>
    rw [List.foldl_cons, ih]
    unfold dbDelete
    rw [List.filter_filter]
    refine List.filter_congr ?_
    intro r hr
    by_cases hrb : r.id = b.id <;> simp [hrb]

theorem foldl_congr_mem {α β : Type} (l : List β) (f g : α → β → α)
    (h : ∀ b ∈ l, ∀ a, f a b = g a b) :
    ∀ init, l.foldl f init = l.foldl g init := by
  induction l with
  | nil => intro init; rfl
  | cons b l ih =>
    intro init
    rw [List.foldl_cons, List.foldl_cons, h b (List.mem_cons_self b l) init]
    exact ih (fun b2 hb2 a => h b2 (List.mem_cons_of_mem _ hb2) a) _

/-- Claim C6 (amended): for every table with primary-key-unique row ids and
every row predicate `p` (the engine's evaluation of the translated query's
WHERE clause), PROVIDED every matching row has a nonempty id: with no match
`findOne` deletes nothing and returns null; with exactly one match it
deletes nothing and returns that row's document; with two or more matches it
deletes every matching row except the first in scan order and returns the
first row's document. The nonemptiness proviso is forced by the dedup pass,
which deletes by the UNWRAPPED id (`WTAF` for an empty row id). -/
theorem c6_findOne_cleanup (p : Row → Bool) (table : List Row)
    (hnodup : (table.map Row.id).Nodup)
    (hids : ∀ r ∈ table.filter p, r.id ≠ "") :
    (table.filter p = [] → findOneModel p table = (Except.ok none, table))
    ∧ (∀ r, table.filter p = [r] →
        findOneModel p table = (Except.ok (some (unwrap r)), table))
    ∧ (∀ r x rest, table.filter p = r :: x :: rest →
        findOneModel p table
          = (Except.ok (some (unwrap r)),
             table.filter (fun y => !(p y) || y.id == r.id))) := by
  refine ⟨?_, ?_, ?_⟩
  · intro h
    have hdel : findOneDeletions p table = table := by
      unfold findOneDeletions
      rw [h]
      simp
    unfold findOneModel sqlGetBy
    rw [hdel, h]
    simp
  · intro r h
    have hdel : findOneDeletions p table = table := by
      unfold findOneDeletions
      rw [h]
      simp
    unfold findOneModel sqlGetBy
    rw [hdel, h]
    simp
  · intro r x rest h
    have hfiltNodup : ((table.filter p).map Row.id).Nodup :=
      List.Nodup.sublist ((List.filter_sublist table).map Row.id) hnodup
    have hrNodup : (r.id :: (x :: rest).map Row.id).Nodup := by
      rw [h, List.map_cons] at hfiltNodup; exact hfiltNodup
    have hrNotIn : r.id ∉ (x :: rest).map Row.id := (List.nodup_cons.mp hrNodup).1
    have hdel :
        findOneDeletions p table
          = table.filter (fun y => !(p y) || y.id == r.id) := by
      unfold findOneDeletions
      rw [h]
      have hlen : ((((r :: x :: rest)).map unwrap).length > 1) := by simp
      rw [if_pos hlen]
      have hdrop : ((r :: x :: rest).map unwrap).drop 1 = (x :: rest).map unwrap := by
        simp
      rw [hdrop, List.foldl_map]
      have hsame : ∀ y ∈ x :: rest, ∀ t : List Row,
          dbDelete t (docIdStr (unwrap y)) = dbDelete t y.id := by
        intro y hy t
        have hyf : y ∈ table.filter p := by
          rw [h]; exact List.mem_cons_of_mem r hy
        rw [docIdStr_unwrap, if_neg (hids y hyf)]
      rw [foldl_congr_mem (x :: rest) _ _ hsame table, foldl_dbDelete (x :: rest) table]
      refine List.filter_congr ?_
      intro y hy
      by_cases hpy : p y = true
      · by_cases hyr : y.id = r.id
        · have hnin : y.id ∉ (x :: rest).map Row.id := by rw [hyr]; exact hrNotIn
          have hlhs : (!(decide (y.id ∈ (x :: rest).map Row.id))) = true := by
            rw [decide_eq_false hnin]; rfl
          have hrhs : (!(p y) || y.id == r.id) = true := by simp [hyr]
          rw [hlhs, hrhs]
        · have hymem : y ∈ table.filter p := List.mem_filter.mpr ⟨hy, hpy⟩
          rw [h] at hymem
          rcases List.mem_cons.mp hymem with rfl | hy2
          · exact absurd rfl hyr
          · have hin : y.id ∈ (x :: rest).map Row.id := List.mem_map.mpr ⟨y, hy2, rfl⟩
            have hlhs : (!(decide (y.id ∈ (x :: rest).map Row.id))) = false := by
              rw [decide_eq_true hin]; rfl
            have hrhs : (!(p y) || y.id == r.id) = false := by simp [hpy, hyr]
            rw [hlhs, hrhs]
      · have hpyf : p y = false := by
          cases hb : p y with
          | false => rfl
          | true => exact absurd hb hpy
        have hnin : y.id ∉ (x :: rest).map Row.id := by
          intro hin
          rcases List.mem_map.mp hin with ⟨z, hz, hzid⟩
          have hzf : z ∈ table.filter p := by
            rw [h]; exact List.mem_cons_of_mem r hz
          have hzmem := (List.mem_filter.mp hzf).1
          have hpz := (List.mem_filter.mp hzf).2
          have hyz : y = z := rowId_unique table hnodup y z hy hzmem hzid.symm
          rw [hyz] at hpy
          exact hpy hpz
        have hlhs : (!(decide (y.id ∈ (x :: rest).map Row.id))) = true := by
          rw [decide_eq_false hnin]; rfl
        have hrhs : (!(p y) || y.id == r.id) = true := by simp [hpyf]
        rw [hlhs, hrhs]
    have hrefilter :
        (table.filter (fun y => !(p y) || y.id == r.id)).filter p = [r] := by
      rw [List.filter_filter]
      have hpt : table.filter (fun y => p y && (!(p y) || y.id == r.id))
          = table.filter (fun y => (y.id == r.id) && p y) := by
        refine List.filter_congr ?_
        intro y hy
        cases hpy : p y <;> simp
      rw [hpt, ← List.filter_filter, h]
      have hsplit : (r :: x :: rest).filter (fun y : Row => y.id == r.id)
          = r :: (x :: rest).filter (fun y : Row => y.id == r.id) :=
        List.filter_cons_of_pos (by simp)
      have hnil : (x :: rest).filter (fun y : Row => y.id == r.id) = [] := by
        refine List.filter_eq_nil_iff.mpr ?_
        intro z hz
        intro hzr
        exact hrNotIn (List.mem_map.mpr ⟨z, hz, by simpa using hzr⟩)
      rw [hsplit, hnil]
    unfold findOneModel sqlGetBy
    rw [hdel, hrefilter]
    simp

/-- Claim C6 counterexample: with two matching rows whose second id is the
empty string, `findOne` deletes nothing (it deletes by the unwrapped id
`WTAF`, which matches no row) and then the cardinality-checking re-query
throws instead of returning the surviving first document. -/
theorem c6_counterexample :
    findOneModel c6P c6BadRows
      = (Except.error "Expected 0 or 1 result", c6BadRows)
    ∧ findOneModel c6P c6BadRows
      ≠ (Except.ok (some (unwrap c6FirstRow)), [c6FirstRow]) := by
  exact ⟨by decide, by decide⟩

/-- Witness for C6: on a two-row table where both rows match, `findOne`
deletes the second match and returns the first row's document. -/
theorem c6_witness :
    findOneModel c6wP c6wRows
      = (Except.ok (some [("id", JSVal.str "a"), ("saved", JSVal.num 1)]),
         [c6FirstRow]) := by
  have h := (c6_findOne_cleanup c6wP c6wRows (by decide) (by decide)).2.2
    c6FirstRow { id := "b", json := [("id", JSVal.str "b")], date := 2 }
    [] (by decide)
  exact h.trans (by decide)

/-- Claim C2: a subscription registered with `on = "write"` DOES receive a
`delete` event. Because `&&` binds tighter than `||`, the source condition
is `on == type || (on == "write" && date > cursor)`, whose second disjunct
ignores the event type entirely; the runner invokes the write-subscription's
callback on the pending delete event. -/
theorem c2_write_subscription_gets_delete :
    (runnerIteration c2State 100).2 = [("s1", 0, c2Event)]
    ∧ c2Event.type = EventType.delete
    ∧ c2State.regs.map Registration.onType = [EventType.write] := by
  exact ⟨by decide, by decide, by decide⟩

/-- Claim C3: subscription `B` (cursor 10) is invoked with the event dated
5 ≤ 10: the batch is fetched past the EARLIEST cursor (0, subscription
`A`'s), and the first disjunct of the dispatch condition
(`on == event.type`) does not consult the subscription's own cursor. -/
theorem c3_dispatch_below_cursor :
    (runnerIteration c3State 100).2 = [("A", 0, c3Event), ("B", 10, c3Event)]
    ∧ c3Event.date ≤ 10 := by
  exact ⟨by decide, by decide⟩

/-- Claim C4: processing the event dated 5 moves subscription `B`'s cursor
BACKWARDS from 10 to 5, both in memory and in the `_cursors` table:
`writeCursor` stores `event.date` unconditionally, with no strictly-greater
guard (unlike the legacy `PSHTriggerRunner`, which has one). -/
theorem c4_cursor_decreases :
    c4State.regs.map (fun r => (r.subscriptionId, r.cursor)) = [("A", 0), ("B", 10)]
    ∧ (runnerIteration c4State 100).1.regs.map (fun r => (r.subscriptionId, r.cursor))
        = [("A", 5), ("B", 5)]
    ∧ (runnerIteration c4State 100).1.cursors = [("A", 5), ("B", 5)]
    ∧ (5 : Nat) < 10 := by
  exact ⟨by decide, by decide, by decide, by decide⟩

/-- Claim C8: `register` does set the new subscription's initial cursor to
the registration time 100 and persists it in `_cursors`, yet the runner
still delivers the pre-existing event dated 50 ≤ 100 to the new
subscription: the batch is fetched past the OLD subscription's cursor 0 and
the `on == event.type` disjunct ignores the new subscription's cursor, so
history is replayed. -/
theorem c8_new_subscription_replays_history :
    c8State.cursors = [("old", 0), ("new", 100)]
    ∧ (runnerIteration c8State 200).2
        = [("old", 0, c8OldEvent), ("new", 100, c8OldEvent)]
    ∧ c8OldEvent.date ≤ 100 := by
  exact ⟨by decide, by decide, by decide⟩

/-- Claim C10: `try` converts EVERY engine error — not only
`duplicate column name` — into a `false` result, and `wipe` therefore
always resolves: for every engine outcome it returns success, silently
swallowing a failed DELETE. -/
theorem c10_wipe_never_rejects :
    (∀ e : String, tryStatement (Except.error e) = false)
    ∧ tryStatement (Except.ok ()) = true
    ∧ (∀ o : Except String Unit, wipeModel o = Except.ok ()) := by
  refine ⟨?_, rfl, ?_⟩
  · intro e
    show (if jsIncludes e "duplicate column name" then false else false) = false
    by_cases hinc : jsIncludes e "duplicate column name"
    · rw [if_pos hinc]
    · rw [if_neg hinc]
  · intro o
    cases o <;> rfl

theorem find?_map_upsertEntry_same (i : String) (j : Doc) (now : Nat)
    (t : List Row) (h : t.any (fun r => r.id == i) = true) :
    (t.map (upsertEntry i j now)).find? (fun r => r.id == i)
      = some { id := i, json := j, date := now } := by
  induction t with
  | nil => simp at h
  | cons r rest ih =>
    by_cases hr : r.id = i
    · have he : upsertEntry i j now r = { id := i, json := j, date := now } := by
        simp [upsertEntry, hr]
      rw [List.map_cons, he, List.find?_cons_of_pos _ (by simp)]
    · have he : upsertEntry i j now r = r := by simp [upsertEntry, hr]
      have h2 : rest.any (fun r => r.id == i) = true := by
        rcases List.any_eq_true.mp h with ⟨x, hx, hxk⟩
        rcases List.mem_cons.mp hx with rfl | hx2
        · exact absurd (by simpa using hxk) hr
        · exact List.any_eq_true.mpr ⟨x, hx2, hxk⟩
      rw [List.map_cons, he, List.find?_cons_of_neg _ (by simpa using hr), ih h2]

theorem find?_map_upsertEntry_ne (i i2 : String) (j : Doc) (now : Nat)
    (t : List Row) (h : i2 ≠ i) :
    (t.map (upsertEntry i j now)).find? (fun r => r.id == i2)
      = t.find? (fun r => r.id == i2) := by
  induction t with
  | nil => rfl
  | cons r rest ih =>
    by_cases hr : r.id = i
    · have he : upsertEntry i j now r = { id := i, json := j, date := now } := by
        simp [upsertEntry, hr]
      rw [List.map_cons, he,
        List.find?_cons_of_neg _ (by simpa using (Ne.symm h)),
        List.find?_cons_of_neg _ (by simp [hr]; exact fun hc => absurd hc.symm h), ih]
    · have he : upsertEntry i j now r = r := by simp [upsertEntry, hr]
      rw [List.map_cons, he]
      by_cases hq : r.id = i2
      · rw [List.find?_cons_of_pos _ (by simpa using hq),
          List.find?_cons_of_pos _ (by simpa using hq)]
      · rw [List.find?_cons_of_neg _ (by simpa using hq),
          List.find?_cons_of_neg _ (by simpa using hq), ih]

theorem find?_upsertRow_self (t : List Row) (i : String) (j : Doc) (now : Nat) :
    (upsertRow t i j now).find? (fun r => r.id == i)
      = some { id := i, json := j, date := now } := by
  unfold upsertRow
  by_cases hA : t.any (fun r => r.id == i) = true
  · rw [if_pos hA, find?_map_upsertEntry_same i j now t hA]
  · rw [if_neg hA]
    have hfalse : t.any (fun r => r.id == i) = false := by
      cases hb : t.any (fun r => r.id == i) with
      | false => rfl
      | true => exact absurd hb hA
    have hnone : t.find? (fun r => r.id == i) = none :=
      List.find?_eq_none.mpr (List.any_eq_false.mp hfalse)
    rw [List.find?_append, hnone, Option.none_or,
      List.find?_cons_of_pos _ (by simp)]

theorem find?_upsertRow_ne (t : List Row) (i i2 : String) (j : Doc) (now : Nat)
    (h : i2 ≠ i) :
    (upsertRow t i j now).find? (fun r => r.id == i2)
      = t.find? (fun r => r.id == i2) := by
  unfold upsertRow
  by_cases hA : t.any (fun r => r.id == i) = true
  · rw [if_pos hA, find?_map_upsertEntry_ne i i2 j now t h]
  · rw [if_neg hA, List.find?_append]
    have hsingle :
        List.find? (fun r : Row => r.id == i2)
          [{ id := i, json := j, date := now }] = none := by
      simp [Ne.symm h]
    rw [hsingle, Option.or_none]

theorem engineTxGo_preserves (failP : List Row → DeferredWrite → Bool)
    (now : Nat) (ws : List DeferredWrite) (i2 : String) :
    ∀ (t t2 : List Row), engineTxGo failP now t ws = some t2 →
      i2 ∉ ws.map DeferredWrite.id →
      t2.find? (fun r => r.id == i2) = t.find? (fun r => r.id == i2) := by
  induction ws with
  | nil =>
    intro t t2 h hnin
    unfold engineTxGo at h
    cases h
    rfl
  | cons w rest ih =>
    intro t t2 h hnin
    unfold engineTxGo at h
    by_cases hf : failP t w = true
    · rw [if_pos hf] at h; cases h
    · rw [if_neg hf] at h
      have hni2 : i2 ∉ rest.map DeferredWrite.id := by
        intro hin
        exact hnin (List.mem_cons_of_mem _ hin)
      have hneq : i2 ≠ w.id := by
        intro he
        exact hnin (he ▸ List.mem_cons_self _ _)
      rw [ih (applyWrite now t w) t2 h hni2]
      unfold applyWrite
      exact find?_upsertRow_ne t w.id i2 _ now hneq

theorem engineTxGo_visible (failP : List Row → DeferredWrite → Bool)
    (now : Nat) (ws : List DeferredWrite) :
    ∀ (t t2 : List Row), engineTxGo failP now t ws = some t2 →
      (ws.map DeferredWrite.id).Nodup →
      ∀ w ∈ ws, t2.find? (fun r => r.id == w.id) = some (writtenRow now w) := by
  induction ws with
  | nil =>
    intro t t2 h hnodup w hw
    cases hw
  | cons w0 rest ih =>
    intro t t2 h hnodup w hw
    unfold engineTxGo at h
    by_cases hf : failP t w0 = true
    · rw [if_pos hf] at h; cases h
    · rw [if_neg hf] at h
      have hnodup2 : (w0.id :: rest.map DeferredWrite.id).Nodup := by
        rw [List.map_cons] at hnodup; exact hnodup
      have hcons := List.nodup_cons.mp hnodup2
      rcases List.mem_cons.mp hw with rfl | hw2
      · rw [engineTxGo_preserves failP now rest w.id (applyWrite now t w) t2 h hcons.1]
        unfold applyWrite writtenRow
        exact find?_upsertRow_self t w.id _ now
      · exact ih (applyWrite now t w0) t2 h hcons.2 w hw2

/-- Claim C9: queue K deferred writes and `execute()`. The statements run
inside one engine transaction (`engineTxGo`): if it commits, the queue is
cleared and every queued document is visible (looking up its id yields the
row written by its upsert, with the id embedded in the json and the write
date); if any statement fails, the transaction aborts, the table is
unchanged, and the queue still holds all K writes. -/
theorem c9_transaction_atomicity (failP : List Row → DeferredWrite → Bool)
    (now : Nat) (table : List Row) (queue : List DeferredWrite)
    (hq : (queue.map DeferredWrite.id).Nodup) :
    ((executeModel failP now table queue).2.2 = true →
      (executeModel failP now table queue).2.1 = []
      ∧ ∀ w ∈ queue,
          (executeModel failP now table queue).1.find? (fun r => r.id == w.id)
            = some (writtenRow now w))
    ∧ ((executeModel failP now table queue).2.2 = false →
      (executeModel failP now table queue).1 = table
      ∧ (executeModel failP now table queue).2.1 = queue) := by
  unfold executeModel
  cases hgo : engineTxGo failP now table queue with
  | some t2 =>
    constructor
    · intro htrue
      constructor
      · rfl
      · intro w hw
        exact engineTxGo_visible failP now queue table t2 hgo hq w hw
    · intro hfalse
      cases hfalse
  | none =>
    constructor
    · intro htrue
      cases htrue
    · intro hfalse
      constructor
      · rfl
      · rfl

/-- Witness for C9: the atomicity theorem applied to the concrete queue
`c9wQueue` against an empty table at time 3. -/
theorem c9_witness :
    (c9wQueue.map DeferredWrite.id).Nodup
    ∧ (((executeModel c9wFail 3 [] c9wQueue).2.2 = true →
        (executeModel c9wFail 3 [] c9wQueue).2.1 = []
        ∧ ∀ w ∈ c9wQueue,
            (executeModel c9wFail 3 [] c9wQueue).1.find? (fun r => r.id == w.id)
              = some (writtenRow 3 w))
      ∧ ((executeModel c9wFail 3 [] c9wQueue).2.2 = false →
        (executeModel c9wFail 3 [] c9wQueue).1 = []
        ∧ (executeModel c9wFail 3 [] c9wQueue).2.1 = c9wQueue)) :=
  ⟨by decide, c9_transaction_atomicity c9wFail 3 [] c9wQueue (by decide)⟩
